import Mathlib

/-! Verification of the ThinxAI web chat module (`web_chat.py`): a shallow
embedding of its history store, streaming decode loop, final-text
extraction, SSE framing, keep-alive ticker and image-path check, with
theorems about the behaviour of each part. Python strings are modelled as
lists of characters, byte strings as lists of byte values. -/

namespace ThinxWeb

/-- Python `str` modelled as a list of characters. -/
abbrev PyStr := List Char

/-- Characters of a Lean string literal, used to write Python string values. -/
def pys (s : String) : PyStr := s.data

/-- ASCII whitespace as stripped by Python `str.strip` / `bytes.strip`. -/
def pySpace (c : Char) : Bool :=
  c = ' ' || c = '\t' || c = '\n' || c = '\r' || c = '\x0b' || c = '\x0c'

/-- Python `str.strip()`: remove whitespace from both ends. -/
def pyStrip (s : PyStr) : PyStr := (s.dropWhile pySpace).rdropWhile pySpace

/-! ## History Store (`load_history`, `save_message`)

A history log file is modelled at line granularity.  Each line is
characterised by the outcome `json.loads` has on it: a valid serialised
entry, a malformed line (`json.loads` raises), or a whitespace-only line
(skipped by the `if line.strip()` guard before any parse is attempted). -/

/-- One history entry, as written by `save_message`: a JSON object with
fields role, content, timestamp and source. -/
structure HistoryEntry where
  role : PyStr
  content : PyStr
  timestamp : PyStr
  source : PyStr
deriving DecidableEq, Repr

/-- One line of a history log file. -/
inductive HLine where
  | valid (e : HistoryEntry)
  | malformed
  | blank
deriving DecidableEq, Repr

/-- A history log file as its sequence of lines. -/
abbrev HistoryFile := List HLine

/-- The read loop of `load_history` (web_chat.py lines 62-66): blank lines
are skipped, each other line is parsed and appended; the first malformed
line makes `json.loads` raise, which aborts the whole loop (`none`). -/
def loadLines : HistoryFile → Option (List HistoryEntry)
  | [] => some []
  | HLine.blank :: rest => loadLines rest
  | HLine.malformed :: _ => none
  | HLine.valid e :: rest => (loadLines rest).map (e :: ·)

/-- Python `messages[-limit:]` for a nonnegative `limit`: with `limit = 0`
the slice `[-0:]` is `[0:]`, i.e. the whole list. -/
def pyTakeLast (l : List α) (n : Nat) : List α :=
  if n = 0 then l else l.drop (l.length - n)

/-- `load_history` (web_chat.py lines 55-70): a missing file reads as the
empty file; any malformed line sends the whole read through the `except`
branch, which returns `[]`; otherwise the parsed entries are sliced with
`[-limit:]`.  The function is total, so the read never raises. -/
def load_history (file : HistoryFile) (limit : Nat) : List HistoryEntry :=
  match loadLines file with
  | some messages => pyTakeLast messages limit
  | none => []

/-- The entry `save_message` (lines 73-86) writes: source is always "web",
the timestamp is taken from the ambient clock and passed in here. -/
def mkEntry (role content timestamp : PyStr) : HistoryEntry :=
  ⟨role, content, timestamp, pys "web"⟩

/-- `save_message`: append one serialised entry line to the log.
`json.dumps` yields a single parseable, non-blank line (newlines inside the
content are escaped), so the appended line is a `valid` one. -/
def save_message (file : HistoryFile) (role content timestamp : PyStr) : HistoryFile :=
  file ++ [HLine.valid (mkEntry role content timestamp)]

/-- A sequence of `save_message` calls on one identity's initially missing
log; each message is given as (role, content, timestamp). -/
def applySaves (msgs : List (PyStr × PyStr × PyStr)) : HistoryFile :=
  msgs.foldl (fun f m => save_message f m.1 m.2.1 m.2.2) []

/-- The entries corresponding to a sequence of `save_message` calls. -/
def entriesOf (msgs : List (PyStr × PyStr × PyStr)) : List HistoryEntry :=
  msgs.map (fun m => mkEntry m.1 m.2.1 m.2.2)

theorem applySaves_go (msgs : List (PyStr × PyStr × PyStr)) (f0 : HistoryFile) :
    msgs.foldl (fun f m => save_message f m.1 m.2.1 m.2.2) f0 =
      f0 ++ (entriesOf msgs).map HLine.valid := by
  induction msgs generalizing f0 with
  | nil => simp [entriesOf]
  | cons m rest ih => simp [entriesOf, ih, save_message] at *; simp [ih, entriesOf]

theorem applySaves_eq (msgs : List (PyStr × PyStr × PyStr)) :
    applySaves msgs = (entriesOf msgs).map HLine.valid := by
  simpa using applySaves_go msgs []

theorem loadLines_map_valid (es : List HistoryEntry) :
    loadLines (es.map HLine.valid) = some es := by
  induction es with
  | nil => rfl
  | cons e rest ih => simp [loadLines, ih]

theorem loadLines_malformed (pre post : HistoryFile) :
    loadLines (pre ++ HLine.malformed :: post) = none := by
  induction pre with
  | nil => rfl
  | cons l rest ih => cases l <;> simp [loadLines, ih]

/-- C1, counterexample: a log with K = 2 valid lines around one malformed
line does not yield the 2 valid entries from `load_history` — the whole
read collapses to `[]`, so strictly fewer than K entries are returned. -/
theorem C1_counterexample :
    load_history [HLine.valid (mkEntry (pys "user") (pys "a") (pys "t1")),
        HLine.malformed,
        HLine.valid (mkEntry (pys "user") (pys "b") (pys "t2"))] 50 = [] ∧
      [mkEntry (pys "user") (pys "a") (pys "t1"),
        mkEntry (pys "user") (pys "b") (pys "t2")] ≠ ([] : List HistoryEntry) := by
  exact ⟨rfl, by decide⟩

/-- C1 (amended): `load_history` never raises (it is a total function whose
`except` branch yields `[]`), but a line that fails to parse is not skipped
individually: `json.loads` raises inside the loop that reads the whole
file, so one malformed line anywhere discards every entry of the read and
the result is the empty list, whatever the limit. -/
theorem C1_malformed_line_empties_read (pre post : HistoryFile) (limit : Nat) :
    load_history (pre ++ HLine.malformed :: post) limit = [] := by
  simp [load_history, loadLines_malformed]

/-- C7, counterexample: with limit `N = 0` the Python slice `messages[-0:]`
is `messages[0:]`, the whole list, so `load_history` returns 1 entry where
the claimed `min(N, count) = 0` entries would be none. -/
theorem C7_counterexample :
    load_history (applySaves [(pys "user", pys "hi", pys "t")]) 0 =
        [mkEntry (pys "user") (pys "hi") (pys "t")] ∧
      [mkEntry (pys "user") (pys "hi") (pys "t")] ≠ ([] : List HistoryEntry) := by
  exact ⟨rfl, by decide⟩

/-- C7 (amended): for every sequence of `save_message` calls to one
identity's log and every positive limit N, `load_history` on that identity
returns exactly the last min(N, count) appended entries in their original
append order.  (At N = 0 the code instead returns all entries, because the
Python slice `[-0:]` is `[0:]`.) -/
theorem C7_read_recent_last_min (msgs : List (PyStr × PyStr × PyStr)) (N : Nat)
    (hN : 1 ≤ N) :
    load_history (applySaves msgs) N = (entriesOf msgs).drop (msgs.length - N) ∧
      (load_history (applySaves msgs) N).length = min N msgs.length := by
  have hload : load_history (applySaves msgs) N =
      pyTakeLast (entriesOf msgs) N := by
    rw [applySaves_eq]
    simp [load_history, loadLines_map_valid]
  have hlen : (entriesOf msgs).length = msgs.length := by simp [entriesOf]
  have htake : pyTakeLast (entriesOf msgs) N =
      (entriesOf msgs).drop (msgs.length - N) := by
    rw [pyTakeLast, if_neg (by omega), hlen]
  refine ⟨hload.trans htake, ?_⟩
  rw [hload, htake]
  simp [hlen]
  omega

/-- C7, witness for the amended theorem at a concrete log of two appends
and N = 1: the read returns exactly the last entry. -/
theorem C7_witness :
    load_history (applySaves [(pys "user", pys "a", pys "t1"),
        (pys "assistant", pys "b", pys "t2")]) 1 =
      [mkEntry (pys "assistant") (pys "b") (pys "t2")] := by
  have h := (C7_read_recent_last_min
    [(pys "user", pys "a", pys "t1"), (pys "assistant", pys "b", pys "t2")] 1
    (by decide)).1
  simpa [entriesOf] using h

/-! ## Assistant Process Adapter: the chunk-buffering decode loop

`call_claude_streaming` (web_chat.py lines 150-201) reads stdout in 64 KB
chunks, appends each chunk to a byte buffer, repeatedly splits off complete
lines at `\n`, skips whitespace-only lines, and hands each other stripped
line to `json.loads`; a line that fails to parse is dropped.  After the
read loop, a non-empty residual buffer gets one final parse attempt.  The
decoder below is parametric in `parse`, the model of `json.loads` on the
decoded stripped line (`none` = `json.JSONDecodeError`, the line is
dropped); the protocol's lines are UTF-8, so byte-to-text decoding is
total here. -/

/-- Python `bytes` modelled as a list of byte values. -/
abbrev ByteStr := List Nat

/-- ASCII whitespace bytes, as stripped by Python `bytes.strip`. -/
def bSpace (b : Nat) : Bool :=
  b = 32 || b = 9 || b = 10 || b = 13 || b = 11 || b = 12

/-- Python `bytes.strip()`. -/
def bStrip (s : ByteStr) : ByteStr := (s.dropWhile bSpace).rdropWhile bSpace

/-- Python `buffer.split(b'\n', 1)` when a newline is present: `some (line,
rest)` splits at the first byte 10, `none` means the buffer has none (the
`while b'\n' in buffer` guard fails). -/
def splitFirstNl : ByteStr → Option (ByteStr × ByteStr)
  | [] => none
  | b :: rest =>
    if b = 10 then some ([], rest)
    else (splitFirstNl rest).map (fun p => (b :: p.1, p.2))

theorem splitFirstNl_some_length {buf : ByteStr} {p : ByteStr × ByteStr}
    (h : splitFirstNl buf = some p) : p.2.length < buf.length := by
  induction buf generalizing p with
  | nil => simp [splitFirstNl] at h
  | cons b rest ih =>
    rw [splitFirstNl] at h
    by_cases hb : b = 10
    · rw [if_pos hb] at h
      cases h
      simp
    · rw [if_neg hb] at h
      cases hq : splitFirstNl rest with
      | none => rw [hq] at h; simp at h
      | some q =>
        rw [hq] at h
        simp at h
        subst h
        simpa using Nat.lt_succ_of_lt (ih hq)

/-- When the first split succeeds, the buffer is the line, the newline,
then the rest. -/
theorem splitFirstNl_decomp {buf l r : ByteStr}
    (h : splitFirstNl buf = some (l, r)) : buf = l ++ 10 :: r := by
  induction buf generalizing l r with
  | nil => simp [splitFirstNl] at h
  | cons b rest ih =>
    rw [splitFirstNl] at h
    by_cases hb : b = 10
    · rw [if_pos hb] at h
      cases h
      simp [hb]
    · rw [if_neg hb] at h
      cases hq : splitFirstNl rest with
      | none => rw [hq] at h; simp at h
      | some q =>
        obtain ⟨q1, q2⟩ := q
        rw [hq] at h
        simp at h
        obtain ⟨h1, h2⟩ := h
        subst h1
        subst h2
        simpa using ih hq

/-- All complete lines of a byte string followed by the final residual
(the part after the last newline, possibly empty). -/
def splitNl (buf : ByteStr) : List ByteStr × ByteStr :=
  match h : splitFirstNl buf with
  | none => ([], buf)
  | some (l, r) =>
    let p := splitNl r
    (l :: p.1, p.2)
termination_by buf.length
decreasing_by exact splitFirstNl_some_length h

/-- The events one complete line contributes: whitespace-only lines are
skipped before parsing (`if not line.strip(): continue`), any other line is
stripped and parsed, and a failed parse is dropped.  The residual buffer at
end of stream goes through the same test (`if buffer.strip():`) and parse. -/
def lineEvents (parse : ByteStr → Option α) (line : ByteStr) : List α :=
  if bStrip line = [] then [] else (parse (bStrip line)).toList

/-- The inner `while b'\n' in buffer` loop: split off complete lines one at
a time, emitting each line's events in order; returns the events and the
remaining (newline-free) buffer. -/
def drainBuffer (parse : ByteStr → Option α) (buf : ByteStr) : List α × ByteStr :=
  match h : splitFirstNl buf with
  | none => ([], buf)
  | some (line, rest) =>
    let p := drainBuffer parse rest
    (lineEvents parse line ++ p.1, p.2)
termination_by buf.length
decreasing_by exact splitFirstNl_some_length h

/-- The outer read loop of `call_claude_streaming`: each chunk read from
stdout is appended to the buffer and complete lines are drained; an empty
chunk means end of stream (`if not chunk: break`), after which the residual
buffer gets one final strip-and-parse attempt. -/
def decodeChunksGo (parse : ByteStr → Option α) (buffer : ByteStr) :
    List ByteStr → List α
  | [] => lineEvents parse buffer
  | c :: cs =>
    if c = [] then lineEvents parse buffer
    else
      let p := drainBuffer parse (buffer ++ c)
      p.1 ++ decodeChunksGo parse p.2 cs

/-- The decoded event sequence `call_claude_streaming` produces from a
given sequence of stdout chunk reads. -/
def decodeChunks (parse : ByteStr → Option α) (chunks : List ByteStr) : List α :=
  decodeChunksGo parse [] chunks

/-- The same byte stream, re-chunked one complete line at a time: each
complete line arrives as one chunk carrying its newline, and the residual
(if any) arrives as one final chunk. -/
def lineChunks (s : ByteStr) : List ByteStr :=
  (splitNl s).1.map (· ++ [10]) ++
    (if (splitNl s).2 = [] then [] else [(splitNl s).2])

/-- Reference decode of a whole byte stream: events of every complete line
in order, then the residual's events. -/
def streamEvents (parse : ByteStr → Option α) (s : ByteStr) : List α :=
  (splitNl s).1.flatMap (lineEvents parse) ++ lineEvents parse (splitNl s).2

theorem splitFirstNl_append_some (y : ByteStr) {x l r : ByteStr}
    (h : splitFirstNl x = some (l, r)) :
    splitFirstNl (x ++ y) = some (l, r ++ y) := by
  induction x generalizing l r with
  | nil => simp [splitFirstNl] at h
  | cons b rest ih =>
    rw [splitFirstNl] at h
    by_cases hb : b = 10
    · rw [if_pos hb] at h
      cases h
      rw [List.cons_append, splitFirstNl, if_pos hb]
    · rw [if_neg hb] at h
      cases hq : splitFirstNl rest with
      | none => rw [hq] at h; simp at h
      | some q =>
        obtain ⟨q1, q2⟩ := q
        rw [hq] at h
        simp at h
        obtain ⟨h1, h2⟩ := h
        subst h1
        subst h2
        rw [List.cons_append, splitFirstNl, if_neg hb, ih hq]
        rfl

theorem splitNl_none {buf : ByteStr} (h : splitFirstNl buf = none) :
    splitNl buf = ([], buf) := by
  rw [splitNl]
  split
  · rfl
  · simp_all

theorem splitNl_some {buf l r : ByteStr} (h : splitFirstNl buf = some (l, r)) :
    splitNl buf = (l :: (splitNl r).1, (splitNl r).2) := by
  rw [splitNl]
  split
  · simp_all
  · rename_i l' r' h'
    rw [h] at h'
    cases h'
    rfl

theorem drainBuffer_none {buf : ByteStr} (parse : ByteStr → Option α)
    (h : splitFirstNl buf = none) : drainBuffer parse buf = ([], buf) := by
  rw [drainBuffer]
  split
  · rfl
  · simp_all

theorem drainBuffer_some {buf l r : ByteStr} (parse : ByteStr → Option α)
    (h : splitFirstNl buf = some (l, r)) :
    drainBuffer parse buf =
      (lineEvents parse l ++ (drainBuffer parse r).1, (drainBuffer parse r).2) := by
  rw [drainBuffer]
  split
  · simp_all
  · rename_i l' r' h'
    rw [h] at h'
    cases h'
    rfl

theorem splitNl_append (x y : ByteStr) :
    splitNl (x ++ y) =
      ((splitNl x).1 ++ (splitNl ((splitNl x).2 ++ y)).1,
        (splitNl ((splitNl x).2 ++ y)).2) := by
  induction x using splitNl.induct with
  | case1 x hx =>
    rw [splitNl_none hx]
    simp
  | case2 x l r hx ih =>
    rw [splitNl_some (splitFirstNl_append_some y hx), splitNl_some hx]
    simp only
    rw [ih]
    simp

theorem splitNl_residual (buf : ByteStr) :
    splitFirstNl (splitNl buf).2 = none := by
  induction buf using splitNl.induct with
  | case1 x hx => rw [splitNl_none hx]; exact hx
  | case2 x l r hx ih =>
    rw [splitNl_some hx]
    exact ih

theorem drainBuffer_eq (parse : ByteStr → Option α) (buf : ByteStr) :
    drainBuffer parse buf =
      ((splitNl buf).1.flatMap (lineEvents parse), (splitNl buf).2) := by
  induction buf using splitNl.induct with
  | case1 x hx => rw [drainBuffer_none parse hx, splitNl_none hx]; rfl
  | case2 x l r hx ih =>
    rw [drainBuffer_some parse hx, splitNl_some hx, ih]
    simp

theorem streamEvents_decomp (parse : ByteStr → Option α) (x y : ByteStr) :
    streamEvents parse (x ++ y) =
      (splitNl x).1.flatMap (lineEvents parse) ++
        streamEvents parse ((splitNl x).2 ++ y) := by
  unfold streamEvents
  rw [splitNl_append x y]
  simp [List.flatMap_append]

theorem decodeChunksGo_eq (parse : ByteStr → Option α) (cs : List ByteStr)
    (buf : ByteStr) (hbuf : splitFirstNl buf = none)
    (hcs : ∀ c ∈ cs, c ≠ []) :
    decodeChunksGo parse buf cs = streamEvents parse (buf ++ cs.flatten) := by
  induction cs generalizing buf with
  | nil =>
    simp [decodeChunksGo, streamEvents, splitNl_none hbuf]
  | cons c cs ih =>
    have hc : c ≠ [] := hcs c (by simp)
    rw [decodeChunksGo, if_neg hc]
    simp only [drainBuffer_eq]
    rw [ih (splitNl (buf ++ c)).2 (splitNl_residual _)
      (fun d hd => hcs d (by simp [hd]))]
    have h2 : buf ++ (c :: cs).flatten = (buf ++ c) ++ cs.flatten := by simp
    rw [h2, streamEvents_decomp parse (buf ++ c) cs.flatten]

theorem splitNl_join (s : ByteStr) :
    ((splitNl s).1.map (· ++ [10])).flatten ++ (splitNl s).2 = s := by
  induction s using splitNl.induct with
  | case1 x hx => rw [splitNl_none hx]; simp
  | case2 x l r hx ih =>
    rw [splitNl_some hx]
    simp only [List.map_cons, List.flatten_cons]
    rw [List.append_assoc, ih, splitFirstNl_decomp hx]
    simp

theorem lineChunks_flatten (s : ByteStr) : (lineChunks s).flatten = s := by
  unfold lineChunks
  rw [List.flatten_append]
  by_cases h : (splitNl s).2 = []
  · rw [h]
    simpa [h] using splitNl_join s
  · rw [if_neg h]
    simpa using splitNl_join s

theorem lineChunks_ne_nil (s : ByteStr) : ∀ c ∈ lineChunks s, c ≠ [] := by
  intro c hc
  unfold lineChunks at hc
  rcases List.mem_append.mp hc with h | h
  · obtain ⟨l, _, rfl⟩ := List.mem_map.mp h
    simp
  · by_cases hres : (splitNl s).2 = [] <;> simp [hres] at h
    simp [h, hres]

/-- C2: the chunk-buffering decode loop is chunking-invariant.  For every
parser, every way of splitting the byte stream into (non-empty) chunk
reads — including splits in the middle of a line — produces the same
decoded event sequence, in the same order, as feeding the stream one
complete line at a time. -/
theorem C2_chunking_invariant {α : Type} (parse : ByteStr → Option α)
    (chunks : List ByteStr) (h : ∀ c ∈ chunks, c ≠ []) :
    decodeChunks parse chunks =
      decodeChunks parse (lineChunks chunks.flatten) := by
  unfold decodeChunks
  rw [decodeChunksGo_eq parse chunks [] rfl h,
    decodeChunksGo_eq parse _ [] rfl (lineChunks_ne_nil _),
    lineChunks_flatten]

/-- C2, witness: a concrete two-line stream split mid-line decodes to the
same events as its line-at-a-time chunking (taking `parse` to be the
stripped line itself). -/
theorem C2_witness :
    decodeChunks (fun l => some l) [[65, 10, 66], [66, 10, 67]] =
      decodeChunks (fun l => some l)
        (lineChunks ([[65, 10, 66], [66, 10, 67]] : List ByteStr).flatten) :=
  C2_chunking_invariant (fun l => some l) [[65, 10, 66], [66, 10, 67]]
    (by decide)

/-! ## Assistant events and final-text extraction

An `Event` holds exactly the fields `call_claude_streaming` and the
`send_event` callbacks read from one decoded JSON object: `type`,
`subtype`, the blocks of `message.content`, `delta.type`, `delta.text`
and the top-level `result` string.  A missing field reads as the default
the corresponding `.get(...)` supplies. -/

/-- The `content` field of a tool-result block: a string, or any
non-string JSON value (the code only tests `isinstance(..., str)`). -/
inductive BlockContent where
  | str (s : PyStr)
  | nonStr
deriving DecidableEq, Repr

/-- One content block of an assistant/user message event. `name` and
`content` model `block.get("name", "tool")` and `block.get("content", "")`
with `none` for a missing key. -/
structure Block where
  type : PyStr
  name : Option PyStr
  content : Option BlockContent
deriving DecidableEq, Repr

/-- One decoded event of the assistant's line-delimited JSON stream. -/
structure Event where
  type : PyStr
  subtype : PyStr
  blocks : List Block
  deltaType : PyStr
  deltaText : PyStr
  result : PyStr
deriving DecidableEq, Repr

/-- A bare `result`-typed event carrying top-level result text `r`. -/
def resultEvent (r : PyStr) : Event :=
  ⟨pys "result", [], [], [], [], r⟩

/-- A bare `content_block_delta` event carrying a `text_delta` payload. -/
def deltaEvent (t : PyStr) : Event :=
  ⟨pys "content_block_delta", [], [], pys "text_delta", t, []⟩

/-- Whether an event carries a `text_delta` payload (web_chat.py lines
172-174). -/
def isTextDelta (e : Event) : Prop :=
  e.type = pys "content_block_delta" ∧ e.deltaType = pys "text_delta"

instance (e : Event) : Decidable (isTextDelta e) := by
  unfold isTextDelta
  exact inferInstance

/-- The `text_delta` extraction of lines 172-175: append the delta text to
the running result when the event carries one. -/
def deltaStep (acc : PyStr) (e : Event) : PyStr :=
  if isTextDelta e then acc ++ e.deltaText else acc

/-- The `result` handling of lines 178-181 (also lines 194-197 for the
residual buffer): a non-empty top-level result string is taken only while
the running result is still empty. -/
def residualStep (acc : PyStr) (e : Event) : PyStr :=
  if e.type = pys "result" ∧ e.result ≠ [] ∧ acc = [] then e.result else acc

/-- Full per-event extraction step: the delta append (lines 172-175)
followed by the result check (lines 178-181), in the code's order. -/
def extractStep (acc : PyStr) (e : Event) : PyStr :=
  if e.type = pys "result" ∧ e.result ≠ [] ∧ deltaStep acc e = [] then e.result
  else deltaStep acc e

/-- The text accumulated over the events of the complete lines. -/
def extractText (events : List Event) : PyStr := events.foldl extractStep []

/-- The final text `call_claude_streaming` returns: the accumulation over
all complete-line events, then the residual buffer's event (if any), which
can only contribute through its `result` field. -/
def adapterResultText (events : List Event) (residual : Option Event) : PyStr :=
  match residual with
  | none => extractText events
  | some e => residualStep (extractText events) e

/-- What one event contributes to the concatenation of deltas. -/
def deltaContrib (e : Event) : PyStr :=
  if isTextDelta e then e.deltaText else []

/-- The concatenation, in order, of all `text_delta` payloads of a list of
events. -/
def deltaConcat (events : List Event) : PyStr := events.flatMap deltaContrib

theorem deltaStep_eq (acc : PyStr) (e : Event) :
    deltaStep acc e = acc ++ deltaContrib e := by
  unfold deltaStep deltaContrib
  split <;> simp

theorem foldl_extract_no_result (l : List Event) (acc : PyStr)
    (h : ∀ e ∈ l, e.type ≠ pys "result") :
    l.foldl extractStep acc = acc ++ deltaConcat l := by
  induction l generalizing acc with
  | nil => simp [deltaConcat]
  | cons e l ih =>
    have he : e.type ≠ pys "result" := h e (by simp)
    have hstep : extractStep acc e = acc ++ deltaContrib e := by
      unfold extractStep
      rw [if_neg (by simp [he]), deltaStep_eq]
    rw [List.foldl_cons, hstep, ih _ (fun x hx => h x (by simp [hx]))]
    simp [deltaConcat, List.flatMap_cons]

theorem deltaConcat_eq_nil {l : List Event} (h : ∀ e ∈ l, ¬ isTextDelta e) :
    deltaConcat l = [] := by
  induction l with
  | nil => rfl
  | cons e l ih =>
    have := h e (by simp)
    simp [deltaConcat, List.flatMap_cons, deltaContrib, this] at *
    exact ih (fun x hx => h x (by simp [hx]))

theorem deltaConcat_ne_nil {l : List Event} {e : Event} (he : e ∈ l)
    (hd : isTextDelta e) (ht : e.deltaText ≠ []) : deltaConcat l ≠ [] := by
  obtain ⟨s, t, rfl⟩ := List.append_of_mem he
  intro h
  rw [deltaConcat, List.flatMap_append, List.flatMap_cons, List.append_eq_nil] at h
  have h2 := h.2
  rw [List.append_eq_nil, deltaContrib, if_pos hd] at h2
  exact ht h2.1

theorem isTextDelta_resultEvent (r : PyStr) : ¬ isTextDelta (resultEvent r) := by
  intro h
  have h1 : pys "result" = pys "content_block_delta" := h.1
  exact absurd h1 (by decide)

theorem extractStep_resultEvent (acc r : PyStr) :
    extractStep acc (resultEvent r) = if r ≠ [] ∧ acc = [] then r else acc := by
  unfold extractStep
  rw [deltaStep_eq, deltaContrib, if_neg (isTextDelta_resultEvent r)]
  simp [resultEvent]

theorem residualStep_ne {acc : PyStr} (e : Event) (h : acc ≠ []) :
    residualStep acc e = acc := by
  unfold residualStep
  rw [if_neg (by simp [h])]

/-- C3: final-text extraction policy.  In any event sequence whose only
`result`-typed event is one carrying non-empty text R (at any position,
with any residual-buffer event): if no `text_delta` payload ever arrives,
the final text is R; and if at least one non-empty `text_delta` arrives
before the result event, the result event's text is ignored and the final
text is the concatenation of the deltas — a result string never overwrites
a non-empty delta-built result. -/
theorem C3_final_text_policy (pre post : List Event) (R : PyStr)
    (residual : Option Event) (hR : R ≠ [])
    (hpre : ∀ e ∈ pre, e.type ≠ pys "result")
    (hpost : ∀ e ∈ post, e.type ≠ pys "result") :
    ((∀ e ∈ pre ++ post, ¬ isTextDelta e) →
      adapterResultText (pre ++ resultEvent R :: post) residual = R) ∧
    ((∃ e ∈ pre, isTextDelta e ∧ e.deltaText ≠ []) →
      adapterResultText (pre ++ resultEvent R :: post) residual =
        deltaConcat (pre ++ resultEvent R :: post)) := by
  have hfold : extractText (pre ++ resultEvent R :: post) =
      post.foldl extractStep (extractStep (pre.foldl extractStep []) (resultEvent R)) := by
    unfold extractText
    rw [show pre ++ resultEvent R :: post = (pre ++ [resultEvent R]) ++ post by simp,
      List.foldl_append, List.foldl_append]
    rfl
  have hpreacc : pre.foldl extractStep [] = deltaConcat pre := by
    simpa using foldl_extract_no_result pre [] hpre
  constructor
  · intro hnd
    have h1 : deltaConcat pre = [] :=
      deltaConcat_eq_nil (fun e he => hnd e (by simp [he]))
    have h2 : extractStep (pre.foldl extractStep []) (resultEvent R) = R := by
      rw [hpreacc, h1, extractStep_resultEvent, if_pos ⟨hR, rfl⟩]
    have h4 : deltaConcat post = [] :=
      deltaConcat_eq_nil (fun e he => hnd e (by simp [he]))
    have hext : extractText (pre ++ resultEvent R :: post) = R := by
      rw [hfold, h2, foldl_extract_no_result post R hpost, h4]
      simp
    cases residual with
    | none => simpa [adapterResultText] using hext
    | some e =>
      show residualStep (extractText (pre ++ resultEvent R :: post)) e = R
      rw [hext, residualStep_ne e hR]
  · rintro ⟨e, he, hde, hdt⟩
    have hpre_ne : deltaConcat pre ≠ [] := deltaConcat_ne_nil he hde hdt
    have h2 : extractStep (pre.foldl extractStep []) (resultEvent R) =
        deltaConcat pre := by
      rw [hpreacc, extractStep_resultEvent, if_neg (by simp [hpre_ne])]
    have hsplit : deltaConcat (pre ++ resultEvent R :: post) =
        deltaConcat pre ++ deltaConcat post := by
      simp [deltaConcat, List.flatMap_append, List.flatMap_cons, deltaContrib,
        isTextDelta_resultEvent]
    have hext : extractText (pre ++ resultEvent R :: post) =
        deltaConcat pre ++ deltaConcat post := by
      rw [hfold, h2, foldl_extract_no_result post _ hpost]
    have hne : deltaConcat pre ++ deltaConcat post ≠ [] := by
      simp [List.append_eq_nil, hpre_ne]
    cases residual with
    | none =>
      show extractText (pre ++ resultEvent R :: post) =
        deltaConcat (pre ++ resultEvent R :: post)
      rw [hext, hsplit]
    | some r =>
      show residualStep (extractText (pre ++ resultEvent R :: post)) r =
        deltaConcat (pre ++ resultEvent R :: post)
      rw [hext, residualStep_ne r hne, hsplit]

/-- C3, witness: a lone result event yields its text; a non-empty delta
followed by a result event yields the delta concatenation instead. -/
theorem C3_witness :
    adapterResultText ([] ++ resultEvent (pys "hi") :: []) none = pys "hi" ∧
      adapterResultText ([deltaEvent (pys "a")] ++ resultEvent (pys "R") :: []) none =
        deltaConcat ([deltaEvent (pys "a")] ++ resultEvent (pys "R") :: []) := by
  constructor
  · exact (C3_final_text_policy [] [] (pys "hi") none (by decide)
      (by simp) (by simp)).1 (by simp)
  · exact (C3_final_text_policy [deltaEvent (pys "a")] [] (pys "R") none
      (by decide) (by decide) (by simp)).2
      ⟨deltaEvent (pys "a"), by simp, by decide, by decide⟩

/-! ## SSE framing: `json.dumps` on the payload dicts and `send_sse_data`

Every dict the code passes to `send_sse_data` has string keys and string
values, in insertion order, so payloads are modelled as association lists
of strings.  `json.dumps` output is modelled literally: `{` and `}`, items
as `"key": "value"` joined by `", "` (the default separators), and the
default `ensure_ascii=True` character escaping. -/

/-- Lowercase hex digit. -/
def hexDigit (n : Nat) : Char :=
  if n < 10 then Char.ofNat (48 + n) else Char.ofNat (87 + n)

/-- Four-digit lowercase hex, as in a JSON `\uXXXX` escape. -/
def hex4 (n : Nat) : PyStr :=
  [hexDigit (n / 4096 % 16), hexDigit (n / 256 % 16), hexDigit (n / 16 % 16),
    hexDigit (n % 16)]

/-- `json.dumps` escaping of one character (default `ensure_ascii=True`):
two-character escapes for quote, backslash and the common controls,
`\uXXXX` for other controls and for non-ASCII (as a surrogate pair above
U+FFFF), plain ASCII kept as is. -/
def jsonEscapeChar (c : Char) : PyStr :=
  if c = '"' then ['\\', '"']
  else if c = '\\' then ['\\', '\\']
  else if c.toNat = 8 then ['\\', 'b']
  else if c = '\t' then ['\\', 't']
  else if c = '\n' then ['\\', 'n']
  else if c.toNat = 12 then ['\\', 'f']
  else if c = '\r' then ['\\', 'r']
  else if c.toNat < 32 then '\\' :: 'u' :: hex4 c.toNat
  else if c.toNat < 127 then [c]
  else if c.toNat < 65536 then '\\' :: 'u' :: hex4 c.toNat
  else ('\\' :: 'u' :: hex4 (55296 + (c.toNat - 65536) / 1024)) ++
    ('\\' :: 'u' :: hex4 (56320 + (c.toNat - 65536) % 1024))

/-- `json.dumps` escaping of a string's characters. -/
def jsonEscape (s : PyStr) : PyStr := s.flatMap jsonEscapeChar

/-- A payload dictionary passed to `send_sse_data`. -/
abbrev Payload := List (PyStr × PyStr)

/-- Python `dict.get(key, default)` on a payload. -/
def pyGet (d : Payload) (k dflt : PyStr) : PyStr :=
  ((d.find? (fun p => p.1 == k)).map Prod.snd).getD dflt

/-- One `"key": "value"` item of the serialized dict. -/
def dumpsEntry (k v : PyStr) : PyStr :=
  '"' :: (jsonEscape k ++ '"' :: ':' :: ' ' :: '"' :: (jsonEscape v ++ ['"']))

/-- The `", "`-joined item list of the serialized dict. -/
def dumpsEntries : Payload → PyStr
  | [] => []
  | [kv] => dumpsEntry kv.1 kv.2
  | kv :: rest => dumpsEntry kv.1 kv.2 ++ ',' :: ' ' :: dumpsEntries rest

/-- `json.dumps` on a payload dict. -/
def dumps (d : Payload) : PyStr := '{' :: (dumpsEntries d ++ ['}'])

/-- The 16 KB per-SSE-frame ceiling (`MAX_SSE_EVENT_SIZE`). -/
def MAX_SSE_EVENT_SIZE : Nat := 16 * 1024

/-- What `send_sse_data` (web_chat.py lines 275-288) writes: either the
frame for the given payload itself, or the truncated summary frame
`{"type": ..., "message": ..., "truncated": true}`. -/
inductive SseOut where
  | normal (d : Payload)
  | truncatedSummary (type_ : PyStr) (message : PyStr)
deriving DecidableEq, Repr

/-- `send_sse_data`: serialize the payload; within the ceiling, write it;
otherwise write the summary frame whose message is the payload's message
(default "Processing...") cut to 500 characters plus an ellipsis. -/
def send_sse_data (d : Payload) : SseOut :=
  if (dumps d).length ≤ MAX_SSE_EVENT_SIZE then .normal d
  else .truncatedSummary (pyGet d (pys "type") (pys "status"))
    ((pyGet d (pys "message") (pys "Processing...")).take 500 ++ pys "...")

theorem jsonEscape_replicate_a (n : Nat) :
    jsonEscape (List.replicate n 'a') = List.replicate n 'a' := by
  induction n with
  | zero => rfl
  | succ n ih =>
    rw [List.replicate_succ, jsonEscape, List.flatMap_cons]
    have h : jsonEscapeChar 'a' = ['a'] := by decide
    rw [h]
    simpa [jsonEscape] using ih

/-- An oversized payload: serialized length 17033, message of 17000 chars. -/
def bigMsg : PyStr := List.replicate 17000 'a'

/-- The payload `{"type": "status", "message": <17000 chars>}`. -/
def bigPayload : Payload := [(pys "type", pys "status"), (pys "message", bigMsg)]

theorem dumps_bigPayload_length : (dumps bigPayload).length = 17033 := by
  have h1 : jsonEscape (pys "type") = pys "type" := by decide
  have h2 : jsonEscape (pys "status") = pys "status" := by decide
  have h3 : jsonEscape (pys "message") = pys "message" := by decide
  have hm : jsonEscape bigMsg = bigMsg := jsonEscape_replicate_a 17000
  have l1 : (pys "type").length = 4 := by decide
  have l2 : (pys "status").length = 6 := by decide
  have l3 : (pys "message").length = 7 := by decide
  have lm : bigMsg.length = 17000 := by rw [bigMsg, List.length_replicate]
  have hE : dumps bigPayload =
      '{' :: ((dumpsEntry (pys "type") (pys "status") ++
        ',' :: ' ' :: dumpsEntry (pys "message") bigMsg) ++ ['}']) := rfl
  rw [hE]
  simp only [dumpsEntry, h1, h2, h3, hm,
    List.length_cons, List.length_append, List.length_nil, l1, l2, l3, lm]

/-- C5, counterexample: for the oversized payload whose message field has
17000 characters, the summary frame that is actually written carries a
message of 503 characters — longer than the 500-character prefix length
the claim allows. -/
theorem C5_counterexample :
    MAX_SSE_EVENT_SIZE < (dumps bigPayload).length ∧
      send_sse_data bigPayload =
        SseOut.truncatedSummary (pys "status") (List.replicate 500 'a' ++ pys "...") ∧
      500 < (List.replicate 500 'a' ++ pys "...").length := by
  have hlen : MAX_SSE_EVENT_SIZE < (dumps bigPayload).length := by
    rw [dumps_bigPayload_length]
    decide
  have htype : pyGet bigPayload (pys "type") (pys "status") = pys "status" := rfl
  have hmsg : pyGet bigPayload (pys "message") (pys "Processing...") = bigMsg := rfl
  refine ⟨hlen, ?_, ?_⟩
  · rw [send_sse_data, if_neg (by omega), htype, hmsg]
    have : bigMsg.take 500 = List.replicate 500 'a' := by
      rw [bigMsg, List.take_replicate]
      norm_num
    rw [this]
  · have h3 : (pys "...").length = 3 := by decide
    rw [List.length_append, List.length_replicate, h3]
    omega

/-- C5 (amended): for every payload whose serialized JSON length exceeds
the 16 KB per-frame ceiling, the frame actually written is the summary
frame carrying `truncated: true`, whose message field is the payload's
message cut to its 500-character prefix plus a three-character ellipsis —
hence no longer than 503 characters; the oversized frame itself is never
written. -/
theorem C5_oversized_frame_truncated (d : Payload)
    (h : MAX_SSE_EVENT_SIZE < (dumps d).length) :
    send_sse_data d =
      SseOut.truncatedSummary (pyGet d (pys "type") (pys "status"))
        ((pyGet d (pys "message") (pys "Processing...")).take 500 ++ pys "...") ∧
      ((pyGet d (pys "message") (pys "Processing...")).take 500 ++ pys "...").length ≤ 503 := by
  constructor
  · rw [send_sse_data, if_neg (by omega)]
  · have h1 : ((pyGet d (pys "message") (pys "Processing...")).take 500).length ≤ 500 := by
      rw [List.length_take]
      omega
    have h2 : (pys "...").length = 3 := by decide
    rw [List.length_append, h2]
    omega

/-- C5, witness for the amended theorem at the concrete oversized payload. -/
theorem C5_witness :
    send_sse_data bigPayload =
      SseOut.truncatedSummary (pyGet bigPayload (pys "type") (pys "status"))
        ((pyGet bigPayload (pys "message") (pys "Processing...")).take 500 ++ pys "...") ∧
      ((pyGet bigPayload (pys "message") (pys "Processing...")).take 500 ++ pys "...").length ≤ 503 :=
  C5_oversized_frame_truncated bigPayload
    (by rw [dumps_bigPayload_length]; decide)

/-! ## The streaming handlers (`handle_message_stream`, `handle_draw_bot_stream`)

The handler body after `response.prepare` is modelled as a pure function of
the request's message field and of the adapter run's outputs (its emitted
events and its returned result/exit-code/stderr), recording the frames
written in order, the history appends, and whether the prompt was built
and the subprocess spawned. -/

/-- One frame written to the SSE response: a progress frame produced
through `send_sse_data`, a directly written error frame, the single final
response frame (which carries no partial flag), one frame of the chunking
loop (type and partial flag as built there), or the done sentinel. -/
inductive Frame where
  | sse (o : SseOut)
  | error (msg : PyStr)
  | respSingle (content : PyStr)
  | respChunk (type_ : PyStr) (content : PyStr) (flagPart : Bool)
  | done
deriving DecidableEq, Repr

/-- Python `s.replace(pat, rep)` for a one-character pattern. -/
def replaceChar (pat : Char) (rep : PyStr) (s : PyStr) : PyStr :=
  s.flatMap (fun c => if c = pat then rep else [c])

/-- The error-frame escaping `error_msg.replace('"', '\\"').replace('\n',
'\\n')` of web_chat.py line 342. -/
def escapeWire (s : PyStr) : PyStr :=
  replaceChar '\n' (pys "\\n") (replaceChar '"' (pys "\\\"") s)

/-- The brief preview `send_event` builds for a tool-result block's content
(web_chat.py lines 310-317): strings over 100 characters are cut and given
an ellipsis, newlines flattened to spaces, non-strings collapse to a fixed
placeholder. -/
def toolResultBrief (c : BlockContent) : PyStr :=
  match c with
  | .str s =>
    if 100 < s.length then
      (s.take 100).map (fun ch => if ch = '\n' then ' ' else ch) ++ pys "..."
    else s.map (fun ch => if ch = '\n' then ' ' else ch)
  | .nonStr => pys "Got result"

/-- The payloads `send_event` (lines 290-318) passes to `send_sse_data` for
one event, in order. -/
def send_event_payloads (e : Event) : List Payload :=
  if e.type = pys "system" ∧ e.subtype = pys "init" then
    [[(pys "type", pys "status"), (pys "message", pys "Initializing...")]]
  else if e.type = pys "assistant" then
    e.blocks.flatMap (fun b =>
      if b.type = pys "tool_use" then
        [[(pys "type", pys "tool"), (pys "name", b.name.getD (pys "tool")),
          (pys "message", pys "Using " ++ b.name.getD (pys "tool") ++ pys "...")]]
      else [])
  else if e.type = pys "user" then
    e.blocks.flatMap (fun b =>
      if b.type = pys "tool_result" then
        [[(pys "type", pys "tool_result"),
          (pys "message", (toolResultBrief (b.content.getD (BlockContent.str []))).take 150)]]
      else [])
  else []

/-- The draw-bot variant of `send_event` (lines 612-633): same shapes,
different message texts. -/
def send_event_payloads_drawbot (e : Event) : List Payload :=
  if e.type = pys "system" ∧ e.subtype = pys "init" then
    [[(pys "type", pys "status"), (pys "message", pys "Initializing Draw Bot...")]]
  else if e.type = pys "assistant" then
    e.blocks.flatMap (fun b =>
      if b.type = pys "tool_use" then
        [[(pys "type", pys "tool"), (pys "name", b.name.getD (pys "tool")),
          (pys "message", b.name.getD (pys "tool"))]]
      else [])
  else if e.type = pys "user" then
    e.blocks.flatMap (fun b =>
      if b.type = pys "tool_result" then
        [[(pys "type", pys "tool_result"), (pys "message", pys "Got result")]]
      else [])
  else []

/-- The progress frames the `on_event` callback writes while streaming. -/
def progressFrames (payloadsOf : Event → List Payload) (events : List Event) :
    List Frame :=
  events.flatMap (fun e => (payloadsOf e).map (fun p => Frame.sse (send_sse_data p)))

/-- The 16 KB final-answer chunk size (`MAX_SSE_CHUNK`). -/
def MAX_SSE_CHUNK : Nat := 16 * 1024

/-- The chunking loop for a large final answer (web_chat.py lines 358-366):
`for i in range(0, len(result), MAX_SSE_CHUNK)`, each slice emitted with
type `response_chunk` and `partial: true` except the last, which has type
`response` and `partial: false`. -/
def chunkLoopFrames (result : PyStr) (i : Nat) : List Frame :=
  if i < result.length then
    Frame.respChunk
      (if result.length ≤ i + MAX_SSE_CHUNK then pys "response" else pys "response_chunk")
      ((result.drop i).take MAX_SSE_CHUNK)
      (!decide (result.length ≤ i + MAX_SSE_CHUNK)) ::
      chunkLoopFrames result (i + MAX_SSE_CHUNK)
  else []
termination_by result.length - i
decreasing_by simp [MAX_SSE_CHUNK]; omega

/-- Final-answer emission of `handle_message_stream` (lines 356-372): one
plain frame within the chunk size, the chunking loop beyond it, then the
done sentinel. -/
def sendFinalFrames (result : PyStr) : List Frame :=
  (if MAX_SSE_CHUNK < result.length then chunkLoopFrames result 0
   else [Frame.respSingle result]) ++ [Frame.done]

/-- ASCII digit test (`\d` over the texts at hand). -/
def isDigit (c : Char) : Bool := 48 ≤ c.toNat && c.toNat ≤ 57

/-- Length of a match of `\[ACTION:check_inbox(?::\d+)?\]\n?` at the head
of `s`, if any. -/
def matchCheckInboxLen (s : PyStr) : Option Nat :=
  match List.dropPrefix? s (pys "[ACTION:check_inbox") with
  | none => none
  | some rest =>
    match rest with
    | ':' :: r =>
      let ds := r.takeWhile isDigit
      if ds.isEmpty then none
      else
        match r.dropWhile isDigit with
        | ']' :: r2 => some (21 + ds.length + (if r2.head? = some '\n' then 1 else 0))
        | _ => none
    | ']' :: r2 => some (20 + (if r2.head? = some '\n' then 1 else 0))
    | _ => none

/-- Length of a match of `\[ACTION:send_email\|[^\]]+\]\n?` at the head of
`s`, if any. -/
def matchSendEmailLen (s : PyStr) : Option Nat :=
  match List.dropPrefix? s (pys "[ACTION:send_email|") with
  | none => none
  | some rest =>
    let body := rest.takeWhile (fun c => !(c = ']'))
    if body.isEmpty then none
    else
      match rest.dropWhile (fun c => !(c = ']')) with
      | ']' :: r2 => some (20 + body.length + (if r2.head? = some '\n' then 1 else 0))
      | _ => none

/-- `re.sub(pattern, '', s)` driver: scan left to right, deleting each
non-overlapping match (the matchers above never match fewer than 20
characters). -/
def subAction (matchLen : PyStr → Option Nat) : PyStr → PyStr
  | [] => []
  | c :: rest =>
    match matchLen (c :: rest) with
    | some n => subAction matchLen (rest.drop (n - 1))
    | none => c :: subAction matchLen rest
termination_by s => s.length
decreasing_by
  · simp
    have := List.length_drop (n - 1) rest
    omega
  · simp

/-- The response cleaning of lines 347-348: strip the two embedded control
directives. -/
def cleanResult (result : PyStr) : PyStr :=
  subAction matchSendEmailLen (subAction matchCheckInboxLen result)

/-- Everything observable one streaming request produces. -/
structure StreamOutcome where
  frames : List Frame
  history : List (PyStr × PyStr)
  promptBuilt : Bool
  spawned : Bool
deriving DecidableEq, Repr

/-- `handle_message_stream` (web_chat.py lines 323-372) after the response
is prepared.  Inputs: the body's message field (`none` when absent), and
the adapter run's emitted events and returned (result, returncode,
stderr). -/
def handle_message_stream (msgField : Option PyStr) (events : List Event)
    (result : PyStr) (returncode : Int) (stderr : PyStr) : StreamOutcome :=
  if pyStrip (msgField.getD []) = [] then
    { frames := [Frame.error (pys "No message provided")], history := [],
      promptBuilt := false, spawned := false }
  else if returncode ≠ 0 ∨ result = [] then
    { frames := progressFrames send_event_payloads events ++
        [Frame.error (escapeWire
          ((if stderr = [] then pys "No response" else stderr).take 500))],
      history := [], promptBuilt := true, spawned := true }
  else
    { frames := progressFrames send_event_payloads events ++
        sendFinalFrames (pyStrip (cleanResult result)),
      history := [(pys "user", pyStrip (msgField.getD [])),
        (pys "assistant", pyStrip (cleanResult result))],
      promptBuilt := true, spawned := true }

/-- `handle_draw_bot_stream` (lines 635-681): the same pipeline with the
draw-bot progress texts and no done sentinel after the final response. -/
def handle_draw_bot_stream (msgField : Option PyStr) (events : List Event)
    (result : PyStr) (returncode : Int) (stderr : PyStr) : StreamOutcome :=
  if pyStrip (msgField.getD []) = [] then
    { frames := [Frame.error (pys "No message provided")], history := [],
      promptBuilt := false, spawned := false }
  else if returncode ≠ 0 ∨ result = [] then
    { frames := progressFrames send_event_payloads_drawbot events ++
        [Frame.error (escapeWire
          ((if stderr = [] then pys "No response" else stderr).take 500))],
      history := [], promptBuilt := true, spawned := true }
  else
    { frames := progressFrames send_event_payloads_drawbot events ++
        (if MAX_SSE_CHUNK < (pyStrip (cleanResult result)).length then
          chunkLoopFrames (pyStrip (cleanResult result)) 0
        else [Frame.respSingle (pyStrip (cleanResult result))]),
      history := [(pys "user", pyStrip (msgField.getD [])),
        (pys "assistant", pyStrip (cleanResult result))],
      promptBuilt := true, spawned := true }

/-- Whether a frame is an error frame on the wire (its `type` field is
`error`). -/
def isErrorFrame : Frame → Bool
  | Frame.error _ => true
  | Frame.sse (SseOut.normal d) => pyGet d (pys "type") [] == pys "error"
  | Frame.sse (SseOut.truncatedSummary t _) => t == pys "error"
  | _ => false

theorem pyGet_type_head (T : PyStr) (rest : Payload) (dflt : PyStr) :
    pyGet ((pys "type", T) :: rest) (pys "type") dflt = T := rfl

theorem send_event_payload_shape (e : Event) :
    ∀ p ∈ send_event_payloads e, ∃ T rest, p = (pys "type", T) :: rest ∧
      (T = pys "status" ∨ T = pys "tool" ∨ T = pys "tool_result") := by
  intro p hp
  unfold send_event_payloads at hp
  split_ifs at hp with h1 h2 h3
  · simp at hp
    exact ⟨pys "status", _, hp, Or.inl rfl⟩
  · rw [List.mem_flatMap] at hp
    obtain ⟨b, hb, hpb⟩ := hp
    by_cases ht : b.type = pys "tool_use"
    · rw [if_pos ht] at hpb
      simp at hpb
      exact ⟨pys "tool", _, hpb, Or.inr (Or.inl rfl)⟩
    · rw [if_neg ht] at hpb
      simp at hpb
  · rw [List.mem_flatMap] at hp
    obtain ⟨b, hb, hpb⟩ := hp
    by_cases ht : b.type = pys "tool_result"
    · rw [if_pos ht] at hpb
      simp at hpb
      exact ⟨pys "tool_result", _, hpb, Or.inr (Or.inr rfl)⟩
    · rw [if_neg ht] at hpb
      simp at hpb
  · simp at hp

theorem progressFrames_no_error (events : List Event) :
    (progressFrames send_event_payloads events).filter isErrorFrame = [] := by
  rw [List.filter_eq_nil_iff]
  intro f hf
  rw [progressFrames, List.mem_flatMap] at hf
  obtain ⟨e, he, hfe⟩ := hf
  rw [List.mem_map] at hfe
  obtain ⟨p, hp, rfl⟩ := hfe
  obtain ⟨T, rest, rfl, hT⟩ := send_event_payload_shape e p hp
  rw [send_sse_data]
  split
  · simp only [isErrorFrame, pyGet_type_head]
    rcases hT with rfl | rfl | rfl <;> decide
  · simp only [isErrorFrame, pyGet_type_head]
    rcases hT with rfl | rfl | rfl <;> decide

/-- C4: for every streaming request with a non-empty message whose adapter
run ends with a non-zero exit code or an empty result, the relay writes the
progress frames and then exactly one error frame — its message the escaped
(quotes and newlines) 500-character prefix of the stderr text (or "No
response" when stderr is empty) — ends the stream there, and appends no
history entries. -/
theorem C4_failure_single_error_frame (msgField : Option PyStr)
    (events : List Event) (result : PyStr) (returncode : Int) (stderr : PyStr)
    (hmsg : pyStrip (msgField.getD []) ≠ [])
    (hfail : returncode ≠ 0 ∨ result = []) :
    (handle_message_stream msgField events result returncode stderr).frames =
      progressFrames send_event_payloads events ++
        [Frame.error (escapeWire
          ((if stderr = [] then pys "No response" else stderr).take 500))] ∧
      ((handle_message_stream msgField events result returncode stderr).frames.filter
        isErrorFrame).length = 1 ∧
      (handle_message_stream msgField events result returncode stderr).history = [] := by
  rw [handle_message_stream, if_neg hmsg, if_pos hfail]
  refine ⟨rfl, ?_, rfl⟩
  simp only [List.filter_append, progressFrames_no_error]
  simp [isErrorFrame]

/-- C4, witness: exit code 1 with stderr "boom" gives exactly one error
frame and an empty history. -/
theorem C4_witness :
    (handle_message_stream (some (pys "hi")) [] [] 1 (pys "boom")).history = [] ∧
      ((handle_message_stream (some (pys "hi")) [] [] 1 (pys "boom")).frames.filter
        isErrorFrame).length = 1 :=
  ⟨(C4_failure_single_error_frame (some (pys "hi")) [] [] 1 (pys "boom")
      (by decide) (Or.inl (by decide))).2.2,
   (C4_failure_single_error_frame (some (pys "hi")) [] [] 1 (pys "boom")
      (by decide) (Or.inl (by decide))).2.1⟩

/-- The response text a frame carries. -/
def frameContent : Frame → PyStr
  | Frame.respSingle c => c
  | Frame.respChunk _ c _ => c
  | _ => []

theorem chunkLoopFrames_spec (result : PyStr) :
    ∀ n i, result.length - i = n → i < result.length →
    ∃ ps c,
      chunkLoopFrames result i = ps ++ [Frame.respChunk (pys "response") c false] ∧
      (∀ f ∈ ps, ∃ cc, f = Frame.respChunk (pys "response_chunk") cc true) ∧
      ((ps ++ [Frame.respChunk (pys "response") c false]).map frameContent).flatten =
        result.drop i ∧
      (ps = [] ↔ result.length ≤ i + MAX_SSE_CHUNK) := by
  intro n
  induction n using Nat.strong_induction_on with
  | _ n ih =>
    intro i hn hi
    rw [chunkLoopFrames, if_pos hi]
    by_cases hlast : result.length ≤ i + MAX_SSE_CHUNK
    · have hnext : ¬ (i + MAX_SSE_CHUNK < result.length) := by omega
      rw [chunkLoopFrames, if_neg hnext]
      refine ⟨[], (result.drop i).take MAX_SSE_CHUNK, ?_, by simp, ?_, by simp [hlast]⟩
      · have hd : decide (result.length ≤ i + MAX_SSE_CHUNK) = true :=
          decide_eq_true hlast
        rw [if_pos hlast, hd]
        rfl
      · simp only [List.nil_append, List.map_cons, List.map_nil,
          List.flatten_cons, List.flatten_nil, frameContent, List.append_nil]
        rw [List.take_of_length_le]
        rw [List.length_drop]
        omega
    · have hi2 : i + MAX_SSE_CHUNK < result.length := by omega
      have hn2 : result.length - (i + MAX_SSE_CHUNK) < n := by
        have hpos : 0 < MAX_SSE_CHUNK := by decide
        omega
      obtain ⟨ps, c, heq, hps, hcont, _⟩ := ih _ hn2 (i + MAX_SSE_CHUNK) rfl hi2
      have hd : decide (result.length ≤ i + MAX_SSE_CHUNK) = false :=
        decide_eq_false hlast
      refine ⟨Frame.respChunk (pys "response_chunk")
        ((result.drop i).take MAX_SSE_CHUNK) true :: ps, c, ?_, ?_, ?_, ?_⟩
      · rw [heq, if_neg hlast, hd]
        rfl
      · intro f hf
        rcases List.mem_cons.mp hf with rfl | hf2
        · exact ⟨_, rfl⟩
        · exact hps f hf2
      · simp only [List.cons_append, List.map_cons, List.flatten_cons, frameContent]
        rw [hcont]
        have hdd : result.drop (i + MAX_SSE_CHUNK) =
            (result.drop i).drop MAX_SSE_CHUNK := by
          rw [List.drop_drop]
        rw [hdd, List.take_append_drop]
      · simp [hlast]

/-- C6: a cleaned final answer of exactly the 16 KB chunk-size limit is
sent as one frame carrying no partial flag; one that exceeds the limit is
split by the chunking loop into at least two frames, all of type
`response_chunk` with partial true except the last, which has type
`response` with partial false, the frame contents concatenating back to
the answer; in both cases the done sentinel frame follows. -/
theorem C6_final_answer_framing (result : PyStr) :
    (result.length = MAX_SSE_CHUNK →
      sendFinalFrames result = [Frame.respSingle result, Frame.done]) ∧
    (MAX_SSE_CHUNK < result.length →
      sendFinalFrames result = chunkLoopFrames result 0 ++ [Frame.done] ∧
      2 ≤ (chunkLoopFrames result 0).length ∧
      (∀ f ∈ (chunkLoopFrames result 0).dropLast,
        ∃ c, f = Frame.respChunk (pys "response_chunk") c true) ∧
      (∃ c, (chunkLoopFrames result 0).getLast? =
        some (Frame.respChunk (pys "response") c false)) ∧
      ((chunkLoopFrames result 0).map frameContent).flatten = result) := by
  constructor
  · intro h
    rw [sendFinalFrames, if_neg (by omega)]
    rfl
  · intro h
    have h0 : 0 < result.length := by omega
    obtain ⟨ps, c, heq, hps, hcont, hiff⟩ :=
      chunkLoopFrames_spec result (result.length - 0) 0 rfl h0
    refine ⟨by rw [sendFinalFrames, if_pos h], ?_, ?_, ?_, ?_⟩
    · rw [heq]
      have hne : ps ≠ [] := by
        intro hnil
        have := hiff.mp hnil
        omega
      have hp : 0 < ps.length := List.length_pos.mpr hne
      rw [List.length_append]
      simp
      omega
    · rw [heq, List.dropLast_concat]
      exact hps
    · rw [heq, List.getLast?_concat]
      exact ⟨c, rfl⟩
    · rw [heq]
      simpa using hcont

/-- C6, witness: an answer of exactly the limit gives the single frame and
the done sentinel; one character over gives at least two chunk frames. -/
theorem C6_witness :
    sendFinalFrames (List.replicate MAX_SSE_CHUNK 'a') =
      [Frame.respSingle (List.replicate MAX_SSE_CHUNK 'a'), Frame.done] ∧
      2 ≤ (chunkLoopFrames (List.replicate (MAX_SSE_CHUNK + 1) 'a') 0).length :=
  ⟨(C6_final_answer_framing _).1 (by rw [List.length_replicate]),
   ((C6_final_answer_framing _).2 (by rw [List.length_replicate]; omega)).2.1⟩

/-- C10: a missing, empty or whitespace-only message field makes both
streaming handlers write the single "No message provided" error frame and
return at once: no prompt is built, no assistant subprocess is spawned, no
history entries are appended. -/
theorem C10_empty_message_short_circuit (msgField : Option PyStr)
    (events : List Event) (result : PyStr) (returncode : Int) (stderr : PyStr)
    (h : pyStrip (msgField.getD []) = []) :
    handle_message_stream msgField events result returncode stderr =
      { frames := [Frame.error (pys "No message provided")], history := [],
        promptBuilt := false, spawned := false } ∧
    handle_draw_bot_stream msgField events result returncode stderr =
      { frames := [Frame.error (pys "No message provided")], history := [],
        promptBuilt := false, spawned := false } := by
  constructor
  · rw [handle_message_stream, if_pos h]
  · rw [handle_draw_bot_stream, if_pos h]

/-- C10, witness: a whitespace-only message and a missing message field. -/
theorem C10_witness :
    handle_message_stream (some (pys "   ")) [] (pys "x") 0 [] =
      { frames := [Frame.error (pys "No message provided")], history := [],
        promptBuilt := false, spawned := false } ∧
    handle_draw_bot_stream none [] (pys "x") 0 [] =
      { frames := [Frame.error (pys "No message provided")], history := [],
        promptBuilt := false, spawned := false } :=
  ⟨(C10_empty_message_short_circuit (some (pys "   ")) [] (pys "x") 0 []
      (by decide)).1,
   (C10_empty_message_short_circuit none [] (pys "x") 0 [] (by decide)).2⟩

/-! ## Image serving (`handle_image`) -/

/-- The responses `handle_image` can produce. -/
inductive ImgResp where
  | badRequest
  | notFound
  | serve (p : PyStr)
deriving DecidableEq, Repr

/-- `handle_image` (web_chat.py lines 446-468): an empty/missing path query
gives a 400; otherwise the path is resolved (`Path(...).resolve()`, an
oracle of the filesystem here) and allowed exactly when its string starts
with the string of one of the two resolved allow-list roots (the downloads
directory and the repository root `SCRIPT_DIR.parent`); a disallowed or
missing file gives a 404, otherwise the file is served. -/
def handle_image (resolve : PyStr → PyStr) (downloadsDir scriptParent : PyStr)
    (fsExists : PyStr → Bool) (pathQ : Option PyStr) : ImgResp :=
  if pathQ.getD [] = [] then ImgResp.badRequest
  else if ([resolve downloadsDir, resolve scriptParent].any
        (fun root => root.isPrefixOf (resolve (pathQ.getD [])))) &&
      fsExists (resolve (pathQ.getD [])) then
    ImgResp.serve (resolve (pathQ.getD []))
  else ImgResp.notFound

/-- Whether a resolved path lies inside a root directory: the root itself,
or a path one separator below it. -/
def underRoot (root p : PyStr) : Prop :=
  p = root ∨ (root ++ ['/']).isPrefixOf p = true

instance (root p : PyStr) : Decidable (underRoot root p) := by
  unfold underRoot
  exact inferInstance

/-- C9: the allow-list check compares path strings with `startswith` and no
trailing separator, so a resolved path that lies outside both allow-listed
roots — here a sibling directory whose name extends the repository root's
name — is served rather than rejected with a 404. -/
theorem C9_prefix_check_admits_outside_path :
    handle_image id (pys "/srv/recovery/thinxai-web/downloads")
        (pys "/srv/recovery") (fun _ => true)
        (some (pys "/srv/recovery_backup/secret.png")) =
      ImgResp.serve (pys "/srv/recovery_backup/secret.png") ∧
      ¬ underRoot (pys "/srv/recovery/thinxai-web/downloads")
        (pys "/srv/recovery_backup/secret.png") ∧
      ¬ underRoot (pys "/srv/recovery") (pys "/srv/recovery_backup/secret.png") := by
  decide

/-! ## Keep-alive ticker (`keep_alive_task`)

The ticker (web_chat.py lines 262-273) sleeps 5 seconds, then writes a
comment-only ping frame when at least 4 seconds have passed since
`last_event_time`, resetting that clock; `send_sse_data` resets the clock
on every frame it writes.  The execution is idealized over discrete unit
time: at each unit `t = 1, 2, ...` the main task may write a
clock-updating frame (`mains t`), and at each multiple of 5 the ticker
wakes and runs its check.  State: (last-write clock, write times so
far). -/

/-- One time unit of the idealized execution. -/
def keepAliveStep (mains : Nat → Bool) (st : Nat × List Nat) (t : Nat) :
    Nat × List Nat :=
  let st1 := if mains t then (t, st.2 ++ [t]) else st
  if t % 5 = 0 ∧ 4 ≤ t - st1.1 then (t, st1.2 ++ [t]) else st1

/-- The clock and write times after `T` time units, the clock starting at
stream open (time 0). -/
def keepAliveRun (mains : Nat → Bool) (T : Nat) : Nat × List Nat :=
  (List.range' 1 T).foldl (keepAliveStep mains) (0, [])

/-- C8, counterexample: with one main-task write at time 7, the ticker
skips its check at time 10 (elapsed 3 < 4) and pings only at time 15, so
consecutive writes 7 and 15 are 8 > 5 time units apart — the silent gap
exceeds the 5-unit ticker interval. -/
theorem C8_counterexample :
    (keepAliveRun (fun t => t == 7) 15).2 = [5, 7, 15] ∧
      ¬ List.Chain' (fun a b => b - a ≤ 5)
        (0 :: (keepAliveRun (fun t => t == 7) 15).2) := by
  have h : (keepAliveRun (fun t => t == 7) 15).2 = [5, 7, 15] := by decide
  refine ⟨h, ?_⟩
  rw [h]
  intro hc
  simp [List.chain'_cons] at hc

theorem chain_append_write {ws : List Nat} {last w : Nat}
    (hch : List.Chain' (fun a b => b - a ≤ 8) (0 :: ws))
    (hlast : (0 :: ws).getLast? = some last) (hw : w - last ≤ 8) :
    List.Chain' (fun a b => b - a ≤ 8) (0 :: (ws ++ [w])) ∧
      (0 :: (ws ++ [w])).getLast? = some w := by
  constructor
  · rw [show (0 :: (ws ++ [w])) = (0 :: ws) ++ [w] from rfl, List.chain'_append]
    refine ⟨hch, by simp, ?_⟩
    intro x hx y hy
    rw [hlast] at hx
    simp at hx hy
    subst hx
    subst hy
    exact hw
  · rw [show (0 :: (ws ++ [w])) = (0 :: ws) ++ [w] from rfl, List.getLast?_concat]

theorem keepAliveStep_inv (mains : Nat → Bool) (last : Nat) (ws : List Nat)
    (T : Nat) (hch : List.Chain' (fun a b => b - a ≤ 8) (0 :: ws))
    (hlast : (0 :: ws).getLast? = some last)
    (hle : last ≤ T) (hgap : T - last ≤ 3 + T % 5) :
    List.Chain' (fun a b => b - a ≤ 8)
        (0 :: (keepAliveStep mains (last, ws) (T + 1)).2) ∧
      (0 :: (keepAliveStep mains (last, ws) (T + 1)).2).getLast? =
        some (keepAliveStep mains (last, ws) (T + 1)).1 ∧
      (keepAliveStep mains (last, ws) (T + 1)).1 ≤ T + 1 ∧
      (T + 1) - (keepAliveStep mains (last, ws) (T + 1)).1 ≤ 3 + (T + 1) % 5 := by
  cases hm : mains (T + 1) with
  | true =>
    have hs : keepAliveStep mains (last, ws) (T + 1) = (T + 1, ws ++ [T + 1]) := by
      simp [keepAliveStep, hm]
    rw [hs]
    obtain ⟨hch', hlast'⟩ := chain_append_write (w := T + 1) hch hlast (by omega)
    exact ⟨hch', hlast', by omega, by omega⟩
  | false =>
    by_cases htick : (T + 1) % 5 = 0 ∧ 4 ≤ (T + 1) - last
    · have hs : keepAliveStep mains (last, ws) (T + 1) = (T + 1, ws ++ [T + 1]) := by
        simp [keepAliveStep, hm, htick]
      rw [hs]
      obtain ⟨hch', hlast'⟩ := chain_append_write (w := T + 1) hch hlast (by omega)
      exact ⟨hch', hlast', by omega, by omega⟩
    · have hs : keepAliveStep mains (last, ws) (T + 1) = (last, ws) := by
        simp [keepAliveStep, hm, htick]
      rw [hs]
      exact ⟨hch, hlast, by omega, by omega⟩

theorem keepAliveRun_inv (mains : Nat → Bool) (T : Nat) :
    List.Chain' (fun a b => b - a ≤ 8) (0 :: (keepAliveRun mains T).2) ∧
      (0 :: (keepAliveRun mains T).2).getLast? = some (keepAliveRun mains T).1 ∧
      (keepAliveRun mains T).1 ≤ T ∧
      T - (keepAliveRun mains T).1 ≤ 3 + T % 5 := by
  induction T with
  | zero => simp [keepAliveRun]
  | succ T ih =>
    obtain ⟨hch, hlast, hle, hgap⟩ := ih
    have hrun : keepAliveRun mains (T + 1) =
        keepAliveStep mains ((keepAliveRun mains T).1, (keepAliveRun mains T).2) (T + 1) := by
      rw [keepAliveRun, keepAliveRun, List.range'_concat, List.foldl_append]
      simp only [List.foldl_cons, List.foldl_nil, Nat.one_mul]
      congr 1
      omega
    rw [hrun]
    exact keepAliveStep_inv mains (keepAliveRun mains T).1 (keepAliveRun mains T).2
      T hch hlast hle hgap

/-- C8 (amended): in the idealized unit-time model of the ticker (checks at
exact multiples of 5, threshold 4, clock reset on every clock-updating
write), no silent gap between consecutive writes on the open stream ever
exceeds 8 time units — the ticker interval plus the threshold, not the
5-unit interval itself, bounds the gap — whatever the main task writes. -/
theorem C8_keepalive_gap_bound (mains : Nat → Bool) (T : Nat) :
    List.Chain' (fun a b => b - a ≤ 8) (0 :: (keepAliveRun mains T).2) :=
  (keepAliveRun_inv mains T).1

end ThinxWeb
